import Mathlib

/-!
Verification of the push-cli core: a shallow embedding of the Pushover
transport layer, the SQLite-backed message store, and the
receive-persist-acknowledge ingestion pipeline, together with theorems
checking the documented behaviour against the embedded code.

Conventions of the embedding:
* Go `time.Time` values are modelled as `Nat` epoch seconds, with `0`
  playing the role of the Go zero time (`IsZero`).
* Go `int64` / `int` values are modelled as `Int`.
* The SQLite layer is modelled as explicit state passing over lists of
  rows.  A transaction is a single state transition: the new row list is
  installed only on commit, so a reader of the model state sees either
  the pre-transaction or the post-transaction table, never a prefix.
* Fallible calls take an explicit fault schedule (`TxFaults`, fault
  flags) standing for the I/O failures the Go `database/sql` layer can
  report; the code under test never inspects these beyond receiving the
  error.
* Per Go `database/sql` semantics, a handle that was opened and later
  closed is still non-nil: operations on it fail with the generic
  driver error (sql: database is closed), not with a nil-handle check.
-/

namespace Push

/-- Mirror of `pushover.ReceivedMessage`: a message returned by the Open
Client API fetch. -/
structure ReceivedMessage where
  pushoverID : Int
  umid : String
  title : String
  message : String
  app : String
  aid : String
  icon : String
  priority : Int
  url : String
  urlTitle : String
  acked : Bool
  html : Bool
  timestamp : Int
deriving DecidableEq, Repr

/-- Mirror of `db.MessageRecord`: the record handed to the store.  The
locally assigned autoincrement id is not modelled (no claim mentions
it); `receivedAt = 0` stands for the Go zero time. -/
structure MessageRecord where
  pushoverID : Int
  umid : String
  title : String
  message : String
  app : String
  aid : String
  icon : String
  receivedAt : Nat
  sentAt : Option Int
  priority : Int
  url : String
  acked : Bool
  html : Bool
deriving DecidableEq, Repr

/-- One stored row of the `messages` table, after the normalisation
performed inside `Store.PersistMessages` (zero receipt time replaced by
now, booleans stored as integers via `boolToInt`). -/
structure MessageRow where
  pushoverID : Int
  umid : String
  title : String
  message : String
  app : String
  aid : String
  icon : String
  receivedAt : Nat
  sentAt : Option Int
  priority : Int
  url : String
  acked : Int
  html : Int
deriving DecidableEq, Repr

/-- Mirror of `db.SentRecord` (sent table row). -/
structure SentRecord where
  message : String
  title : String
  device : String
  priority : Int
  sentAt : Nat
  requestID : String
deriving DecidableEq, Repr

/-- Mirror of `db.boolToInt`. -/
def boolToInt (v : Bool) : Int :=
  if v then 1 else 0

/-- The row written for a record by `Store.PersistMessages`: a zero
receipt time is replaced by the current time, `Acked` and `HTML` go
through `boolToInt`.  The UTC conversions are identity on epoch
seconds and are not modelled. -/
def toRow (now : Nat) (m : MessageRecord) : MessageRow :=
  { pushoverID := m.pushoverID
    umid := m.umid
    title := m.title
    message := m.message
    app := m.app
    aid := m.aid
    icon := m.icon
    receivedAt := if m.receivedAt = 0 then now else m.receivedAt
    sentAt := m.sentAt
    priority := m.priority
    url := m.url
    acked := boolToInt m.acked
    html := boolToInt m.html }

/-- Model of `db.Store`.  `hasHandle` is true when the Go receiver and
its `sql` field are both non-nil; `closed` records that `Close` was
called on the handle (the Go `Close` does not reset the `sql` field,
so `hasHandle` stays true). -/
structure Store where
  hasHandle : Bool
  closed : Bool
  messages : List MessageRow
  sent : List SentRecord
deriving DecidableEq, Repr

/-- Error conditions of the store layer, one constructor per distinct
Go error site (the wrapped driver causes are elided). -/
inductive DBError
  | notInitialized
  | beginTx
  | prepareStmt
  | insertMessage
  | commitTx
  | insertSent
  | queryFailed
deriving DecidableEq, Repr

/-- Go error strings of the store layer, as produced by the
corresponding `errors.New` / `fmt.Errorf` sites. -/
def DBError.message : DBError → String
  | .notInitialized => "database not initialized"
  | .beginTx => "begin tx: driver failure"
  | .prepareStmt => "prepare insert: driver failure"
  | .insertMessage => "insert message: driver failure"
  | .commitTx => "commit messages: driver failure"
  | .insertSent => "insert sent record: driver failure"
  | .queryFailed => "query history: driver failure"

/-- Fault schedule for one batched insert transaction: which of the
fallible driver calls fail.  `execFailAt = some i` makes the statement
execution for the i-th record (0-based) fail. -/
structure TxFaults where
  beginFail : Bool
  prepareFail : Bool
  execFailAt : Option Nat
  commitFail : Bool
deriving DecidableEq, Repr

/-- The all-clear fault schedule. -/
def noFaults : TxFaults :=
  { beginFail := false, prepareFail := false, execFailAt := Option.none, commitFail := false }

/-- Model of the SQLite upsert `INSERT ... ON CONFLICT(pushover_id) DO
UPDATE SET ...`: when a row with the same `pushover_id` exists its
fields are overwritten in place, otherwise the row is appended. -/
def upsertRow (t : List MessageRow) (r : MessageRow) : List MessageRow :=
  if t.any (fun q => q.pushoverID == r.pushoverID) then
    t.map (fun q => if q.pushoverID == r.pushoverID then r else q)
  else
    t ++ [r]

/-- The per-record loop body of `Store.PersistMessages`, run inside the
open transaction: arguments are the remaining records, the index of the
next record, the `inserted` counter, and the rows as seen inside the
transaction. -/
def persistLoop (now : Nat) (f : TxFaults) :
    List MessageRecord → Nat → Nat → List MessageRow →
    Nat × Option DBError × List MessageRow
  | [], _, inserted, rows => (inserted, Option.none, rows)
  | m :: rest, i, inserted, rows =>
    if f.execFailAt = some i then
      (inserted, some .insertMessage, rows)
    else
      persistLoop now f rest (i + 1) (inserted + 1) (upsertRow rows (toRow now m))

/-- The commit step closing the transaction of `Store.PersistMessages`:
on a loop error the transaction rolls back (old rows kept) but the
accumulated counter is still returned alongside the error, exactly as
in the Go code; a commit failure likewise rolls back; otherwise the new
rows are installed. -/
def commitStep (s : Store) (f : TxFaults) :
    Nat × Option DBError × List MessageRow → Nat × Option DBError × Store
  | (inserted, some e, _) => (inserted, some e, s)
  | (inserted, Option.none, rows) =>
    if f.commitFail then (inserted, some .commitTx, s)
    else (inserted, Option.none, { s with messages := rows })

/-- Mirror of `Store.PersistMessages`: nil-handle check, empty-batch
shortcut, then one transaction upserting every record, closed by the
commit step. -/
def Store.PersistMessages (s : Store) (now : Nat) (msgs : List MessageRecord)
    (f : TxFaults) : Nat × Option DBError × Store :=
  if ¬ s.hasHandle then (0, some .notInitialized, s)
  else if msgs = [] then (0, Option.none, s)
  else if s.closed then (0, some .beginTx, s)
  else if f.beginFail then (0, some .beginTx, s)
  else if f.prepareFail then (0, some .prepareStmt, s)
  else commitStep s f (persistLoop now f msgs 0 0 s.messages)

/-- Mirror of `Store.LogSent`: nil-handle check, zero-time
normalisation, then a single append insert (fallible via `ioFail`). -/
def Store.LogSent (s : Store) (now : Nat) (rec : SentRecord) (ioFail : Bool) :
    Option DBError × Store :=
  if ¬ s.hasHandle then (some .notInitialized, s)
  else
    let sentAt := if rec.sentAt = 0 then now else rec.sentAt
    if s.closed then (some .insertSent, s)
    else if ioFail then (some .insertSent, s)
    else (Option.none, { s with sent := s.sent ++ [{ rec with sentAt := sentAt }] })

/-- Mirror of `Store.Close`: a nil store or handle is a no-op; closing
marks the handle closed but does not reset it to nil. -/
def Store.Close (s : Store) : Store :=
  if ¬ s.hasHandle then s else { s with closed := true }

/-- Mirror of `messages.RecordsFromReceived`: conversion of fetched API
messages into store records; receipt time is the current time, the sent
time is derived from a positive origin timestamp. -/
def RecordsFromReceived (now : Nat) (msgs : List ReceivedMessage) : List MessageRecord :=
  msgs.map (fun m : ReceivedMessage =>
    { pushoverID := m.pushoverID
      umid := m.umid
      title := m.title
      message := m.message
      app := m.app
      aid := m.aid
      icon := m.icon
      receivedAt := now
      sentAt := if m.timestamp > 0 then some m.timestamp else Option.none
      priority := m.priority
      url := m.url
      acked := m.acked
      html := m.html })

/-- Mirror of `messages.PersistReceived`: empty batches short-circuit
before any store call; otherwise the converted records are persisted. -/
def PersistReceived (s : Store) (now : Nat) (msgs : List ReceivedMessage)
    (f : TxFaults) : Nat × Option DBError × Store :=
  if msgs = [] then (0, Option.none, s)
  else Store.PersistMessages s now (RecordsFromReceived now msgs) f

/-- Comparison of one pattern character against one text character
under the SQLite default `LIKE` collation: ASCII-only case folding,
exactly as `Char.toLower`. -/
def likeChar (p c : Char) : Bool :=
  p.toLower == c.toLower

/-- Every suffix of a character list, the list itself and the empty
suffix included. -/
def suffixes : List Char → List (List Char)
  | [] => [[]]
  | c :: s => (c :: s) :: suffixes s

/-- The SQLite default `LIKE` matcher over the whole text: a percent
sign in the pattern matches any sequence of characters (tried as every
suffix of the remaining text), an underscore matches exactly one
character, and any other pattern character matches one text character
under ASCII case folding.  No ESCAPE clause is in play, exactly as in
the query the Go code builds. -/
def likeRun : List Char → List Char → Bool
  | [], s => s.isEmpty
  | p :: ps, s =>
    if p = '%' then (suffixes s).any (fun t => likeRun ps t)
    else
      match s with
      | [] => false
      | c :: s2 => (if p = '_' then true else likeChar p c) && likeRun ps s2

/-- The `LIKE` filter the Go code applies: the raw search string is
interpolated between two percent signs (`fmt.Sprintf` of three percent
escapes around the search), so percent signs and underscores inside
the search string act as wildcards. -/
def likeMatch (search s : String) : Bool :=
  likeRun ('%' :: (search.toList ++ ['%'])) s.toList

/-- Case-insensitive prefix test under the same ASCII folding. -/
def isPrefixCI : List Char → List Char → Bool
  | [], _ => true
  | _ :: _, [] => false
  | p :: ps, c :: cs => likeChar p c && isPrefixCI ps cs

/-- Case-insensitive substring containment, written from the words of
the specification (a substring match across body and title under the
store collation), to be compared against the `likeMatch` the source
actually performs. -/
def substringCI (pat s : String) : Bool :=
  (suffixes s.toList).any (fun t => isPrefixCI pat.toList t)

/-- Search strings free of the two `LIKE` wildcard characters; for
these the `LIKE` filter and plain substring containment coincide. -/
def noWildcard (search : String) : Bool :=
  search.toList.all (fun c => !(c == '%' || c == '_'))

/-- The search clause of `Store.QueryMessages`:
`(message LIKE ? OR title LIKE ?)`. -/
def rowMatchesSearch (search : String) (r : MessageRow) : Bool :=
  likeMatch search r.message || likeMatch search r.title

/-- The full WHERE clause of `Store.QueryMessages` for one row: the
since clause applies only when a non-nil, non-zero threshold was given,
the search clause only when the search string is non-empty. -/
def rowKept (since : Option Nat) (search : String) (r : MessageRow) : Bool :=
  (match since with
   | Option.none => true
   | some t => if t = 0 then true else decide (t ≤ r.receivedAt)) &&
  (if search = "" then true else rowMatchesSearch search r)

/-- Ordering relation of `ORDER BY received_at DESC`: a row comes
before another when its receipt time is at least as large. -/
def recvDesc (a b : MessageRow) : Prop :=
  b.receivedAt ≤ a.receivedAt

instance : DecidableRel recvDesc := fun a b => Nat.decLe b.receivedAt a.receivedAt

instance : IsTotal MessageRow recvDesc :=
  ⟨fun a b => by unfold recvDesc; exact Nat.le_total b.receivedAt a.receivedAt⟩

instance : IsTrans MessageRow recvDesc :=
  ⟨fun _ _ _ hab hbc => Nat.le_trans hbc hab⟩

/-- Mirror of `Store.QueryMessages`: nil-handle check, limit
normalisation (non-positive becomes 20), filtering by the optional
since threshold and the optional substring search, ordering by receipt
time descending, and the LIMIT cut. -/
def Store.QueryMessages (s : Store) (limit : Int) (since : Option Nat)
    (search : String) : Except DBError (List MessageRow) :=
  if ¬ s.hasHandle then .error .notInitialized
  else if s.closed then .error .queryFailed
  else
    let lim : Nat := if limit ≤ 0 then 20 else limit.toNat
    let rows := s.messages.filter (rowKept since search)
    .ok ((List.insertionSort recvDesc rows).take lim)

/-- Mirror of `pushover.FetchResult`. -/
structure FetchResult where
  messages : List ReceivedMessage
  lastMessageID : Int
  requestID : String
deriving DecidableEq, Repr

/-- The fold both `determineAckID` and `highestMessageID` run over the
fetched messages: the largest remote identity above the start value. -/
def highestFold (msgs : List ReceivedMessage) (start : Int) : Int :=
  msgs.foldl (fun h m => if m.pushoverID > h then m.pushoverID else h) start

/-- Mirror of `mcp.determineAckID`: prefer a positive explicit cursor,
else fold for the highest identity (starting from zero). -/
def determineAckID (result : Option FetchResult) : Int :=
  match result with
  | Option.none => 0
  | some r =>
    if r.lastMessageID > 0 then r.lastMessageID
    else highestFold r.messages 0

/-- Mirror of `cli.highestMessageID`: same computation, but the message
list is an explicit argument. -/
def highestMessageID (result : Option FetchResult) (msgs : List ReceivedMessage) : Int :=
  match result with
  | some r => if r.lastMessageID > 0 then r.lastMessageID else highestFold msgs 0
  | Option.none => highestFold msgs 0

/-- Error values of the transport layer, one constructor per Go error
shape. -/
inductive PushErr
  | twoFactorRequired
  | api (status : Int) (requestID : String) (messages : List String)
  | ctxCanceled
  | buildFailed
  | netFailure (tag : Nat)
  | requestFailed
deriving DecidableEq, Repr

/-- Go error strings of the transport layer (variable parts elided). -/
def PushErr.message : PushErr → String
  | .twoFactorRequired => "pushover: two-factor authentication required"
  | .api _ _ _ => "pushover API error"
  | .ctxCanceled => "context canceled"
  | .buildFailed => "building request failed"
  | .netFailure _ => "network failure"
  | .requestFailed => "pushover: request failed"

/-- Model of an HTTP response as seen by `decodeAPIError`: the status
code, the fields the JSON unmarshal of the body yields (zero values
when absent or unparsable), and the raw body text. -/
structure HTTPResponse where
  statusCode : Int
  bodyStatus : Int
  bodyRequest : String
  bodyErrors : List String
  bodyRaw : String
deriving DecidableEq, Repr

/-- Mirror of `pushover.decodeAPIError`: HTTP 412 maps to the
distinguished two-factor error before the body is read; otherwise the
message list falls back to the trimmed raw body and the status falls
back to the HTTP status code. -/
def decodeAPIError (resp : HTTPResponse) : PushErr :=
  if resp.statusCode = 412 then .twoFactorRequired
  else
    let errs :=
      if resp.bodyErrors = [] ∧ resp.bodyRaw ≠ "" then [resp.bodyRaw.trim]
      else resp.bodyErrors
    let status := if resp.bodyStatus = 0 then resp.statusCode else resp.bodyStatus
    .api status resp.bodyRequest errs

/-- Mirror of `pushover` constants: the fixed retry delay in seconds
and the default attempt ceiling. -/
def retryDelay : Nat := 5

/-- Default attempt ceiling passed by every operation to `Client.do`. -/
def defaultRequestAttempts : Int := 2

/-- Observable events of one `Client.do` run: the builder invocation of
an attempt, the dispatch of an attempt through `doOnce`, and a full
inter-attempt wait of the given number of seconds. -/
inductive DoEvent
  | build (attempt : Nat)
  | dispatch (attempt : Nat)
  | wait (seconds : Nat)
deriving DecidableEq, Repr

/-- Environment of one `Client.do` run: the outcome of every
cancellation check and of every builder and dispatch call, indexed by
the attempt number (1-based).  `ctxTop` is the check at the top of the
loop, `ctxAfter` the check after a failed dispatch, `ctxWait` tells
whether cancellation fires during the retry delay after the given
attempt.  A dispatch error covers both network failure and a
cancellation hit inside the concurrency-slot wait of `doOnce`. -/
structure DoEnv where
  ctxTop : Nat → Bool
  ctxAfter : Nat → Bool
  ctxWait : Nat → Bool
  buildFails : Nat → Bool
  dispatch : Nat → Except PushErr HTTPResponse

/-- Mirror of the effective attempt count in `Client.do`: a
non-positive `retries` argument is normalised to one attempt. -/
def attemptsOf (retries : Int) : Nat :=
  if retries ≤ 0 then 1 else retries.toNat

/-- The retry loop of `Client.do`, structural on the number of
remaining attempts (`remaining + 1` attempts including the current one,
`i` the 1-based attempt number).  Returns the result together with the
event trace. -/
def doLoop (env : DoEnv) :
    Nat → Nat → Option PushErr → Except PushErr HTTPResponse × List DoEvent
  | 0, _, lastErr =>
    (match lastErr with
     | some e => .error e
     | Option.none => .error .requestFailed, [])
  | remaining + 1, i, _ =>
    if env.ctxTop i then (.error .ctxCanceled, [])
    else if env.buildFails i then (.error .buildFailed, [.build i])
    else
      match env.dispatch i with
      | .ok resp => (.ok resp, [.build i, .dispatch i])
      | .error e =>
        if env.ctxAfter i then (.error .ctxCanceled, [.build i, .dispatch i])
        else
          match remaining with
          | 0 => (.error e, [.build i, .dispatch i])
          | r + 1 =>
            if env.ctxWait i then (.error .ctxCanceled, [.build i, .dispatch i])
            else
              let next := doLoop env (r + 1) (i + 1) (some e)
              (next.1, [.build i, .dispatch i, .wait retryDelay] ++ next.2)

/-- Mirror of `Client.do`: normalise the attempt ceiling and run the
retry loop from attempt 1. -/
def clientDo (env : DoEnv) (retries : Int) : Except PushErr HTTPResponse × List DoEvent :=
  doLoop env (attemptsOf retries) 1 Option.none

/-- Mirror of the response classification every operation performs
right after `Client.do` succeeds: a status of at least 400 becomes the
decoded API error, otherwise the response is accepted. -/
def classifyResponse (resp : HTTPResponse) : Except PushErr HTTPResponse :=
  if resp.statusCode ≥ 400 then .error (decodeAPIError resp)
  else .ok resp

/-- The error a failed dispatch outcome carries (the fallback
constructor is never reached for an error outcome). -/
def errOf : Except PushErr HTTPResponse → PushErr
  | .error e => e
  | .ok _ => PushErr.requestFailed

/-- The event trace of a run whose every attempt dispatches and fails:
each attempt contributes its own builder invocation followed by its
dispatch, with one full retry delay between consecutive attempts. -/
def cleanTrace : Nat → Nat → List DoEvent
  | 0, _ => []
  | 1, i => [.build i, .dispatch i]
  | r + 2, i => [.build i, .dispatch i, .wait retryDelay] ++ cleanTrace (r + 1) (i + 1)

/-- Attempts `lo` through `hi` of the environment build fine, dispatch
with a failing outcome, and see no cancellation at any check. -/
def CleanFail (env : DoEnv) (lo hi : Nat) : Prop :=
  ∀ j, lo ≤ j → j ≤ hi →
    env.ctxTop j = false ∧ env.buildFails j = false ∧
    (env.dispatch j).isOk = false ∧ env.ctxAfter j = false ∧ env.ctxWait j = false

/-- Recogniser for builder events. -/
def isBuild : DoEvent → Bool
  | .build _ => true
  | _ => false

/-- Recogniser for dispatch events. -/
def isDispatch : DoEvent → Bool
  | .dispatch _ => true
  | _ => false

/-- Recogniser for wait events. -/
def isWait : DoEvent → Bool
  | .wait _ => true
  | _ => false

/-- Environment whose every attempt fails at the network level with no
cancellation anywhere. -/
def allFailEnv : DoEnv :=
  { ctxTop := fun _ => false
    ctxAfter := fun _ => false
    ctxWait := fun _ => false
    buildFails := fun _ => false
    dispatch := fun j => .error (PushErr.netFailure j) }

/-- Sample rejected response with HTTP status 500 and a parsed error
body. -/
def sampleErrResp : HTTPResponse :=
  { statusCode := 500, bodyStatus := 0, bodyRequest := "rid",
    bodyErrors := ["bad request"], bodyRaw := "ignored" }

/-- Sample response with the two-factor HTTP status 412. -/
def sample412Resp : HTTPResponse :=
  { statusCode := 412, bodyStatus := 0, bodyRequest := "", bodyErrors := [],
    bodyRaw := "" }

/-- Sample rejected response with HTTP status 400. -/
def status400Resp : HTTPResponse :=
  { statusCode := 400, bodyStatus := 0, bodyRequest := "", bodyErrors := [],
    bodyRaw := "" }

/-- Environment whose first attempt completes the exchange with a
status-400 response. -/
def oneOkEnv : DoEnv :=
  { ctxTop := fun _ => false
    ctxAfter := fun _ => false
    ctxWait := fun _ => false
    buildFails := fun _ => false
    dispatch := fun _ => .ok status400Resp }

/-- Sample stored row with the given identity and receipt time. -/
def sampleRow (id2 : Int) (recv : Nat) : MessageRow :=
  { pushoverID := id2, umid := "", title := "t", message := "body", app := "",
    aid := "", icon := "", receivedAt := recv, sentAt := Option.none, priority := 0,
    url := "", acked := 0, html := 0 }

/-- Sample open store holding two rows with distinct receipt times. -/
def queryStore : Store :=
  { hasHandle := true, closed := false,
    messages := [sampleRow 1 5, sampleRow 2 9], sent := [] }

/-- Stored row whose body reads 100x: it matches the pattern the
search string 100 percent builds, yet does not contain that search
string as a substring. -/
def wildcardRow : MessageRow :=
  { pushoverID := 9, umid := "", title := "t", message := "100x", app := "",
    aid := "", icon := "", receivedAt := 4, sentAt := Option.none, priority := 0,
    url := "", acked := 0, html := 0 }

/-- Store holding only `wildcardRow`. -/
def wildcardStore : Store :=
  { hasHandle := true, closed := false, messages := [wildcardRow], sent := [] }

/-- Output structure of the `check_messages` tool
(`mcp.CheckMessagesOutput`); warnings are strings with the empty
string standing for absence, exactly as in Go. -/
structure CheckMessagesOutput where
  count : Nat
  returned : Nat
  limit : Nat
  persisted : Nat
  ackedUpTo : Int
  messages : List ReceivedMessage
  warning : String
  ackWarning : String
deriving DecidableEq, Repr

/-- Environment of one ingestion cycle (`mcp.handleCheckMessages`):
the store and its fault schedule, the current time, the fetch outcome,
and the acknowledge outcome as a function of the cursor. -/
structure CheckEnv where
  store : Store
  faults : TxFaults
  now : Nat
  fetch : Except PushErr FetchResult
  ack : Int → Except PushErr Unit

/-- The effective response limit of the `check_messages` tool: a
missing or non-positive limit argument defaults to 10. -/
def limitOf (limitIn : Option Int) : Nat :=
  match limitIn with
  | some l => if l > 0 then l.toNat else 10
  | Option.none => 10

/-- The warning string derived from an optional store error, as the Go
code renders `persistErr.Error()` (empty string when absent). -/
def warningOf : Option DBError → String
  | some e => DBError.message e
  | Option.none => ""

/-- The acknowledge warning string derived from the acknowledge
outcome (empty string on success). -/
def ackWarnOf : Except PushErr Unit → String
  | .error e => PushErr.message e
  | .ok _ => ""

/-- Mirror of `mcp.handleCheckMessages` (credential validation, which
precedes everything and is independent of the cycle, is assumed to
pass).  Returns the output structure, whether an acknowledge call was
issued, and the resulting store.  The acknowledge call is issued, and
its outcome consulted, only when the cursor is positive. -/
def handleCheckMessages (env : CheckEnv) (limitIn : Option Int) :
    Except PushErr (CheckMessagesOutput × Bool × Store) :=
  let limit : Nat := limitOf limitIn
  match env.fetch with
  | .error e => .error e
  | .ok result =>
    let pr := PersistReceived env.store env.now result.messages env.faults
    let ackedID := determineAckID (some result)
    let outgoing :=
      if result.messages.length > limit then result.messages.take limit
      else result.messages
    .ok ({ count := result.messages.length
           returned := outgoing.length
           limit := limit
           persisted := pr.1
           ackedUpTo := ackedID
           messages := outgoing
           warning := warningOf pr.2.1
           ackWarning := if ackedID > 0 then ackWarnOf (env.ack ackedID) else "" },
         (if ackedID > 0 then true else false), pr.2.2)

/-- Mirror of the `maxConcurrentRequests` constant: capacity of the
buffered limiter channel allocated in `NewClient`. -/
def maxConcurrentRequests : Nat := 2

/-- Phase of one logical transport call with respect to the shared
limiter channel in `Client.doOnce`: before the select, blocked in the
select, holding a slot while the exchange executes, released, or
aborted by cancellation while blocked. -/
inductive CallPhase
  | idle
  | waiting
  | executing
  | finished
  | cancelled
deriving DecidableEq, Repr

/-- Interleaving state of `n` concurrent calls against one client. -/
structure LimiterState (n : Nat) where
  phase : Fin n → CallPhase

/-- Number of calls currently executing against the underlying HTTP
exchange; these are exactly the holders of limiter slots, since the
slot release is deferred to the return of the exchange. -/
def executingCount {n : Nat} (s : LimiterState n) : Nat :=
  (Finset.univ.filter (fun i => s.phase i = CallPhase.executing)).card

/-- State with the phase of one call replaced. -/
def setPhase {n : Nat} (s : LimiterState n) (i : Fin n) (p : CallPhase) :
    LimiterState n :=
  ⟨Function.update s.phase i p⟩

/-- Small-step semantics of the limiter select in `Client.doOnce`.  A
send on the buffered channel (acquire) is enabled only while fewer
than `maxConcurrentRequests` slots are held; the cancellation branch
of the select is enabled whenever the call is blocked waiting. -/
inductive LimiterStep {n : Nat} : LimiterState n → LimiterState n → Prop
  | start (s : LimiterState n) (i : Fin n) :
      s.phase i = CallPhase.idle →
      LimiterStep s (setPhase s i CallPhase.waiting)
  | acquire (s : LimiterState n) (i : Fin n) :
      s.phase i = CallPhase.waiting →
      executingCount s < maxConcurrentRequests →
      LimiterStep s (setPhase s i CallPhase.executing)
  | release (s : LimiterState n) (i : Fin n) :
      s.phase i = CallPhase.executing →
      LimiterStep s (setPhase s i CallPhase.finished)
  | cancel (s : LimiterState n) (i : Fin n) :
      s.phase i = CallPhase.waiting →
      LimiterStep s (setPhase s i CallPhase.cancelled)

/-- Initial state: no call has entered `doOnce` yet. -/
def initState (n : Nat) : LimiterState n :=
  ⟨fun _ => CallPhase.idle⟩

/-- States reachable by any interleaving of the `n` calls. -/
def ReachableState {n : Nat} (s : LimiterState n) : Prop :=
  Relation.ReflTransGen LimiterStep (initState n) s

/-- Sample open store used by concrete instances. -/
def sampleStore : Store :=
  { hasHandle := true, closed := false, messages := [], sent := [] }

/-- Sample store whose handle was closed via `Store.Close`. -/
def closedStore : Store :=
  { hasHandle := true, closed := true, messages := [], sent := [] }

/-- Sample store that was never opened (nil handle). -/
def nilStore : Store :=
  { hasHandle := false, closed := false, messages := [], sent := [] }

/-- Sample record for the messages table. -/
def sampleMsgRecord (id : Int) (title : String) : MessageRecord :=
  { pushoverID := id, umid := "", title := title, message := "body", app := "",
    aid := "", icon := "", receivedAt := 4, sentAt := Option.none, priority := 0,
    url := "", acked := false, html := false }

/-- Sample sent-table record. -/
def sampleSent : SentRecord :=
  { message := "m", title := "", device := "", priority := 0, sentAt := 2,
    requestID := "r" }

/-- Sample fetched message. -/
def sampleReceived (id : Int) : ReceivedMessage :=
  { pushoverID := id, umid := "", title := "", message := "m", app := "", aid := "",
    icon := "", priority := 0, url := "", urlTitle := "", acked := false,
    html := false, timestamp := 0 }

/-- Fetch result with an explicit positive cursor and no messages. -/
def fetchR7 : FetchResult :=
  { messages := [], lastMessageID := 7, requestID := "" }

/-- Fetch result with no explicit cursor and the 100/105 two-message
list of the specification scenario. -/
def fetchR100 : FetchResult :=
  { messages := [sampleReceived 100, sampleReceived 105], lastMessageID := 0,
    requestID := "" }

/-- Fetch result with no messages and no explicit cursor. -/
def fetchEmpty : FetchResult :=
  { messages := [], lastMessageID := 0, requestID := "" }

/-- Fetch result of the persistence-failure scenario: three messages,
no explicit cursor. -/
def scenarioFetch : FetchResult :=
  { messages := [sampleReceived 1, sampleReceived 2, sampleReceived 3],
    lastMessageID := 0, requestID := "" }

/-- Ingestion environment whose fetch finds nothing. -/
def emptyEnv : CheckEnv :=
  { store := sampleStore, faults := noFaults, now := 5, fetch := .ok fetchEmpty,
    ack := fun _ => .ok () }

/-- Concrete ingestion environment for the persistence-failure
scenario: a successful fetch of three messages against a store whose
transaction begin fails, with a succeeding acknowledge endpoint. -/
def scenarioEnv : CheckEnv :=
  { store := sampleStore
    faults := { beginFail := true, prepareFail := false, execFailAt := Option.none,
                commitFail := false }
    now := 9
    fetch := .ok scenarioFetch
    ack := fun _ => .ok () }

/-- Key uniqueness invariant of the messages table: `pushover_id` is a
UNIQUE column. -/
def KeysUnique (t : List MessageRow) : Prop :=
  t.Pairwise (fun a b => a.pushoverID ≠ b.pushoverID)

/-- All stored rows carrying the given remote identity. -/
def rowsFor (t : List MessageRow) (id : Int) : List MessageRow :=
  t.filter (fun q => q.pushoverID == id)

/-- The last record of a batch carrying the given remote identity. -/
def lastWith (msgs : List MessageRecord) (id : Int) : Option MessageRecord :=
  msgs.reverse.find? (fun m => m.pushoverID == id)

/-- Effect of a fully committed batch on the stored rows: the fold of
the per-record upsert. -/
def applyBatch (now : Nat) (t : List MessageRow) (msgs : List MessageRecord) :
    List MessageRow :=
  msgs.foldl (fun rows m => upsertRow rows (toRow now m)) t

lemma replaceKey_eq (r q : MessageRow) :
    (if q.pushoverID == r.pushoverID then r else q).pushoverID = q.pushoverID := by
  by_cases h : q.pushoverID = r.pushoverID
  · simp [h]
  · simp [h]

lemma upsertRow_keysUnique {t : List MessageRow} (r : MessageRow)
    (hu : KeysUnique t) : KeysUnique (upsertRow t r) := by
  unfold upsertRow
  split
  · exact List.Pairwise.map _
      (fun a b hab => by rw [replaceKey_eq, replaceKey_eq]; exact hab) hu
  · rename_i hany
    have hall : ∀ x ∈ t, ¬ x.pushoverID = r.pushoverID := by simpa using hany
    rw [KeysUnique, List.pairwise_append]
    refine ⟨hu, List.pairwise_singleton _ _, ?_⟩
    intro a ha b hb
    have hb2 : b = r := by simpa using hb
    subst hb2
    exact hall a ha

lemma rowsFor_singleton {t : List MessageRow} (hu : KeysUnique t) (k : Int) :
    rowsFor t k = [] ∨ ∃ q, rowsFor t k = [q] ∧ q.pushoverID = k := by
  induction t with
  | nil => exact Or.inl rfl
  | cons q t ih =>
    rcases hu with _ | ⟨hq, hu2⟩
    by_cases hqk : q.pushoverID = k
    · right
      refine ⟨q, ?_, hqk⟩
      have hnil : List.filter (fun b => b.pushoverID == k) t = [] := by
        rw [List.filter_eq_nil_iff]
        intro b hb
        simp only [beq_iff_eq]
        exact fun hbk => hq b hb (by rw [hqk, hbk])
      rw [rowsFor, List.filter_cons, if_pos (beq_iff_eq.mpr hqk), hnil]
    · have hstep : rowsFor (q :: t) k = rowsFor t k := by
        rw [rowsFor, List.filter_cons,
          if_neg (by simp only [beq_iff_eq]; exact hqk), rowsFor]
      rw [hstep]
      exact ih hu2

lemma rowsFor_upsert_self {t : List MessageRow} (r : MessageRow)
    (hu : KeysUnique t) : rowsFor (upsertRow t r) r.pushoverID = [r] := by
  unfold upsertRow
  split
  · rename_i hany
    rw [rowsFor, List.filter_map]
    have hfil : t.filter ((fun q => q.pushoverID == r.pushoverID) ∘
        (fun q => if q.pushoverID == r.pushoverID then r else q)) =
        rowsFor t r.pushoverID := by
      apply List.filter_congr
      intro x _
      show ((if x.pushoverID == r.pushoverID then r else x).pushoverID ==
        r.pushoverID) = (x.pushoverID == r.pushoverID)
      rw [replaceKey_eq]
    rw [hfil]
    rcases rowsFor_singleton hu r.pushoverID with hnil | ⟨q, hq, hqk⟩
    · exfalso
      rcases List.any_eq_true.mp hany with ⟨x, hx, hxk⟩
      have hmem : x ∈ rowsFor t r.pushoverID := by
        rw [rowsFor, List.mem_filter]; exact ⟨hx, hxk⟩
      rw [hnil] at hmem
      simp at hmem
    · rw [hq]
      have hrep : (if q.pushoverID == r.pushoverID then r else q) = r :=
        if_pos (beq_iff_eq.mpr hqk)
      simp only [List.map_cons, List.map_nil, hrep]
  · rename_i hany
    have hall : ∀ x ∈ t, ¬ x.pushoverID = r.pushoverID := by simpa using hany
    have hnil : List.filter (fun q => q.pushoverID == r.pushoverID) t = [] := by
      rw [List.filter_eq_nil_iff]
      intro a ha
      simp only [beq_iff_eq]
      exact hall a ha
    rw [rowsFor, List.filter_append, hnil]
    simp

lemma rowsFor_upsert_other {t : List MessageRow} (r : MessageRow) {k : Int}
    (hne : k ≠ r.pushoverID) : rowsFor (upsertRow t r) k = rowsFor t k := by
  unfold upsertRow
  split
  · rw [rowsFor, List.filter_map]
    have hfil : t.filter ((fun q => q.pushoverID == k) ∘
        (fun q => if q.pushoverID == r.pushoverID then r else q)) = t.filter
        (fun q => q.pushoverID == k) := by
      apply List.filter_congr
      intro x _
      show ((if x.pushoverID == r.pushoverID then r else x).pushoverID == k) =
        (x.pushoverID == k)
      rw [replaceKey_eq]
    rw [hfil, rowsFor]
    have hid : ∀ a ∈ t.filter (fun q => q.pushoverID == k),
        (fun q => if q.pushoverID == r.pushoverID then r else q) a = id a := by
      intro a ha
      rw [List.mem_filter] at ha
      have hak : a.pushoverID = k := by simpa using ha.2
      have hnk : ¬ (a.pushoverID == r.pushoverID) = true := by
        simp only [beq_iff_eq, hak]
        exact hne
      simp only [id_eq]
      rw [if_neg hnk]
    rw [List.map_congr_left hid, List.map_id]
  · rw [rowsFor, List.filter_append, rowsFor]
    have hnk : ¬ (r.pushoverID == k) = true := by
      simp only [beq_iff_eq]
      exact fun h => hne h.symm
    simp [hnk]

lemma applyBatch_keysUnique {t : List MessageRow} (now : Nat)
    (msgs : List MessageRecord) (hu : KeysUnique t) :
    KeysUnique (applyBatch now t msgs) := by
  induction msgs generalizing t with
  | nil => exact hu
  | cons m rest ih => exact ih (upsertRow_keysUnique _ hu)

lemma lastWith_cons (m : MessageRecord) (rest : List MessageRecord) (k : Int) :
    lastWith (m :: rest) k =
      (lastWith rest k).or (if m.pushoverID == k then some m else Option.none) := by
  rw [lastWith, lastWith, List.reverse_cons, List.find?_append]
  have hsingle : List.find? (fun m2 => m2.pushoverID == k) [m] =
      if (m.pushoverID == k) = true then some m else Option.none := by
    by_cases h : (m.pushoverID == k) = true
    · simp [List.find?, h]
    · simp [List.find?, h]
  rw [hsingle]

lemma rowsFor_applyBatch {t : List MessageRow} (now : Nat)
    (msgs : List MessageRecord) (k : Int) (hu : KeysUnique t) :
    rowsFor (applyBatch now t msgs) k =
      match lastWith msgs k with
      | some m => [toRow now m]
      | Option.none => rowsFor t k := by
  induction msgs generalizing t with
  | nil => rfl
  | cons m rest ih =>
    have hstep : applyBatch now t (m :: rest) =
        applyBatch now (upsertRow t (toRow now m)) rest := rfl
    rw [hstep, ih (upsertRow_keysUnique _ hu), lastWith_cons]
    rcases hlast : lastWith rest k with _ | m2
    · by_cases hmk : m.pushoverID = k
      · have hkey : (toRow now m).pushoverID = k := hmk
        have hself := rowsFor_upsert_self (toRow now m) hu
        rw [hkey] at hself
        simp [hmk, hself]
      · have hne : ¬ (m.pushoverID == k) = true := by simpa using hmk
        simp [hne, rowsFor_upsert_other (toRow now m)
          (show k ≠ (toRow now m).pushoverID from fun h => hmk (by simpa using h.symm))]
    · simp

lemma persistLoop_clean {now : Nat} {f : TxFaults}
    (h : f.execFailAt = Option.none) (msgs : List MessageRecord) :
    ∀ (i ins : Nat) (rows : List MessageRow),
      persistLoop now f msgs i ins rows =
        (ins + msgs.length, Option.none, applyBatch now rows msgs) := by
  induction msgs with
  | nil => intro i ins rows; simp [persistLoop, applyBatch]
  | cons m rest ih =>
    intro i ins rows
    rw [persistLoop]
    have : ¬ f.execFailAt = some i := by rw [h]; simp
    rw [if_neg this, ih]
    have harith : ins + 1 + rest.length = ins + (rest.length + 1) := by omega
    rw [harith]
    rfl

lemma persistLoop_none_inv {now : Nat} {f : TxFaults} {c : Nat}
    {rws : List MessageRow} (msgs : List MessageRecord) :
    ∀ (i ins : Nat) (rows : List MessageRow),
      persistLoop now f msgs i ins rows = (c, Option.none, rws) →
      c = ins + msgs.length ∧ rws = applyBatch now rows msgs := by
  induction msgs with
  | nil =>
    intro i ins rows hres
    rw [persistLoop] at hres
    have h1 : ins = c := congrArg Prod.fst hres
    have h3 : rows = rws := congrArg (fun x => x.2.2) hres
    rw [← h3]
    exact ⟨by simp only [List.length_nil]; omega, by simp [applyBatch]⟩
  | cons m rest ih =>
    intro i ins rows hres
    rw [persistLoop] at hres
    by_cases hfail : f.execFailAt = some i
    · rw [if_pos hfail] at hres
      have hbad : (some DBError.insertMessage : Option DBError) = Option.none :=
        congrArg (fun x => x.2.1) hres
      simp at hbad
    · rw [if_neg hfail] at hres
      obtain ⟨h1, h2⟩ := ih (i + 1) (ins + 1) (upsertRow rows (toRow now m)) hres
      exact ⟨by simp only [List.length_cons]; omega, h2⟩

lemma persistLoop_failAt {now : Nat} {f : TxFaults}
    (msgs : List MessageRecord) :
    ∀ (k i ins : Nat) (rows : List MessageRow),
      f.execFailAt = some (i + k) → k < msgs.length →
      persistLoop now f msgs i ins rows =
        (ins + k, some DBError.insertMessage, applyBatch now rows (msgs.take k)) := by
  induction msgs with
  | nil => intro k i ins rows _ hk; simp at hk
  | cons m rest ih =>
    intro k i ins rows hfail hk
    rw [persistLoop]
    match k with
    | 0 =>
      rw [if_pos (by simpa using hfail)]
      rfl
    | k2 + 1 =>
      have hne : ¬ f.execFailAt = some i := by
        rw [hfail]
        intro hcon
        have hinj := Option.some.inj hcon
        omega
      rw [if_neg hne]
      have : f.execFailAt = some ((i + 1) + k2) := by rw [hfail]; congr 1; omega
      rw [ih k2 (i + 1) (ins + 1) _ this (by simpa using hk)]
      have harith : ins + 1 + k2 = ins + (k2 + 1) := by omega
      rw [harith]
      rfl

lemma PersistMessages_noFaults (s : Store) (now : Nat)
    (msgs : List MessageRecord) (hh : s.hasHandle = true) (hc : s.closed = false) :
    Store.PersistMessages s now msgs noFaults =
      (msgs.length, Option.none, { s with messages := applyBatch now s.messages msgs }) := by
  by_cases hmsgs : msgs = []
  · subst hmsgs
    rw [Store.PersistMessages, if_neg (by simp [hh]), if_pos rfl]
    rfl
  · rw [Store.PersistMessages, if_neg (by simp [hh]), if_neg hmsgs,
      if_neg (by simp [hc]), if_neg (by simp [noFaults]), if_neg (by simp [noFaults]),
      persistLoop_clean (by simp [noFaults]), commitStep]
    rw [if_neg (by simp [noFaults])]
    simp

lemma PersistMessages_spec (s : Store) (now : Nat) (msgs : List MessageRecord)
    (f : TxFaults) :
    ((Store.PersistMessages s now msgs f).2.1 ≠ Option.none →
      (Store.PersistMessages s now msgs f).2.2 = s) ∧
    ((Store.PersistMessages s now msgs f).2.1 = Option.none →
      (Store.PersistMessages s now msgs f).2.2 =
          { s with messages := applyBatch now s.messages msgs } ∧
        (Store.PersistMessages s now msgs f).1 = msgs.length) := by
  rw [Store.PersistMessages]
  by_cases h1 : ¬ s.hasHandle
  · rw [if_pos h1]
    exact ⟨fun _ => rfl, fun h => by simp at h⟩
  rw [if_neg h1]
  by_cases h2 : msgs = []
  · rw [if_pos h2]
    subst h2
    exact ⟨fun h => by simp at h, fun _ => ⟨rfl, rfl⟩⟩
  rw [if_neg h2]
  by_cases h3 : s.closed
  · rw [if_pos h3]
    exact ⟨fun _ => rfl, fun h => by simp at h⟩
  rw [if_neg h3]
  by_cases h4 : f.beginFail
  · rw [if_pos h4]
    exact ⟨fun _ => rfl, fun h => by simp at h⟩
  rw [if_neg h4]
  by_cases h5 : f.prepareFail
  · rw [if_pos h5]
    exact ⟨fun _ => rfl, fun h => by simp at h⟩
  rw [if_neg h5]
  rcases hres : persistLoop now f msgs 0 0 s.messages with ⟨ins, err, rows⟩
  rcases err with _ | e
  · simp only [commitStep]
    by_cases h6 : f.commitFail
    · rw [if_pos h6]
      exact ⟨fun _ => rfl, fun h => by simp at h⟩
    · rw [if_neg h6]
      obtain ⟨hc1, hc2⟩ := persistLoop_none_inv msgs 0 0 s.messages hres
      constructor
      · intro h
        exact absurd rfl h
      · intro _
        refine ⟨by rw [← hc2], ?_⟩
        simp only [hc1]
        omega
  · simp only [commitStep]
    simp

/-- C1: persisting a batch of received records (and persisting again,
possibly with differing field values for the same remote identity)
leaves exactly one stored row per remote identity appearing in the
batch, whose fields equal the normalised fields of the last record
written for that identity; inserting a record whose identity already
exists overwrites the row rather than adding one. -/
theorem persistMessages_upsert_idempotent
    (s : Store) (now now2 : Nat) (b b2 : List MessageRecord)
    (hh : s.hasHandle = true) (hc : s.closed = false) (hu : KeysUnique s.messages) :
    KeysUnique ((Store.PersistMessages
        (Store.PersistMessages s now b noFaults).2.2 now2 b2 noFaults).2.2).messages ∧
    (∀ (k : Int) (m : MessageRecord), lastWith b2 k = some m →
      rowsFor ((Store.PersistMessages
          (Store.PersistMessages s now b noFaults).2.2 now2 b2 noFaults).2.2).messages
        k = [toRow now2 m]) ∧
    (∀ (k : Int) (m : MessageRecord), lastWith b2 k = some m →
      ((Store.PersistMessages
          (Store.PersistMessages s now b noFaults).2.2 now2 b2 noFaults).2.2).messages.countP
        (fun q => q.pushoverID == k) = 1) ∧
    (∀ (t : List MessageRow) (r : MessageRow),
      (∃ q ∈ t, q.pushoverID = r.pushoverID) → (upsertRow t r).length = t.length) := by
  have h1 := PersistMessages_noFaults s now b hh hc
  have hs1 : (Store.PersistMessages s now b noFaults).2.2 =
      { s with messages := applyBatch now s.messages b } := by rw [h1]
  have hu1 : KeysUnique ((Store.PersistMessages s now b noFaults).2.2).messages := by
    rw [hs1]
    exact applyBatch_keysUnique now b hu
  have h2 := PersistMessages_noFaults ((Store.PersistMessages s now b noFaults).2.2)
    now2 b2 (by rw [hs1]; exact hh) (by rw [hs1]; exact hc)
  have hs2 : ((Store.PersistMessages
      (Store.PersistMessages s now b noFaults).2.2 now2 b2 noFaults).2.2).messages =
      applyBatch now2 ((Store.PersistMessages s now b noFaults).2.2).messages b2 := by
    rw [h2]
  have hrows : ∀ (k : Int) (m : MessageRecord), lastWith b2 k = some m →
      rowsFor ((Store.PersistMessages
          (Store.PersistMessages s now b noFaults).2.2 now2 b2 noFaults).2.2).messages
        k = [toRow now2 m] := by
    intro k m hlast
    rw [hs2, rowsFor_applyBatch now2 b2 k hu1, hlast]
  refine ⟨?_, hrows, ?_, ?_⟩
  · rw [hs2]
    exact applyBatch_keysUnique now2 b2 hu1
  · intro k m hlast
    rw [List.countP_eq_length_filter]
    have hfil := hrows k m hlast
    rw [rowsFor] at hfil
    rw [hfil]
    rfl
  · intro t r ⟨q, hq, hqk⟩
    unfold upsertRow
    have hany : (t.any fun q2 => q2.pushoverID == r.pushoverID) = true :=
      List.any_eq_true.mpr ⟨q, hq, beq_iff_eq.mpr hqk⟩
    rw [if_pos hany, List.length_map]

/-- Witness for C1 at a concrete batch with a repeated identity. -/
theorem persistMessages_upsert_idempotent_witness :
    KeysUnique ((Store.PersistMessages
        (Store.PersistMessages sampleStore 4 [sampleMsgRecord 1 "a", sampleMsgRecord 1 "b"]
          noFaults).2.2 5 [sampleMsgRecord 1 "c", sampleMsgRecord 1 "d"] noFaults).2.2).messages ∧
    (∀ (k : Int) (m : MessageRecord),
      lastWith [sampleMsgRecord 1 "c", sampleMsgRecord 1 "d"] k = some m →
      rowsFor ((Store.PersistMessages
          (Store.PersistMessages sampleStore 4 [sampleMsgRecord 1 "a", sampleMsgRecord 1 "b"]
            noFaults).2.2 5 [sampleMsgRecord 1 "c", sampleMsgRecord 1 "d"] noFaults).2.2).messages
        k = [toRow 5 m]) ∧
    (∀ (k : Int) (m : MessageRecord),
      lastWith [sampleMsgRecord 1 "c", sampleMsgRecord 1 "d"] k = some m →
      ((Store.PersistMessages
          (Store.PersistMessages sampleStore 4 [sampleMsgRecord 1 "a", sampleMsgRecord 1 "b"]
            noFaults).2.2 5 [sampleMsgRecord 1 "c", sampleMsgRecord 1 "d"] noFaults).2.2).messages.countP
        (fun q => q.pushoverID == k) = 1) ∧
    (∀ (t : List MessageRow) (r : MessageRow),
      (∃ q ∈ t, q.pushoverID = r.pushoverID) → (upsertRow t r).length = t.length) :=
  persistMessages_upsert_idempotent sampleStore 4 5
    [sampleMsgRecord 1 "a", sampleMsgRecord 1 "b"]
    [sampleMsgRecord 1 "c", sampleMsgRecord 1 "d"] rfl rfl List.Pairwise.nil

/-- C4 (amended): the batched persist is atomic: on error no row of the
batch is applied (state unchanged), on success every row is applied and
the returned count equals the batch size; but on a mid-batch statement
failure the returned count is the number of rows processed before the
failure inside the rolled-back transaction, not the zero rows actually
applied. -/
theorem persistMessages_atomic
    (s : Store) (now : Nat) (msgs : List MessageRecord) (f : TxFaults) (k : Nat)
    (hk : k < msgs.length) (hh : s.hasHandle = true) (hc : s.closed = false) :
    ((Store.PersistMessages s now msgs f).2.1 ≠ Option.none →
      (Store.PersistMessages s now msgs f).2.2 = s) ∧
    ((Store.PersistMessages s now msgs f).2.1 = Option.none →
      (Store.PersistMessages s now msgs f).2.2 =
          { s with messages := applyBatch now s.messages msgs } ∧
        (Store.PersistMessages s now msgs f).1 = msgs.length) ∧
    (Store.PersistMessages s now msgs
        { beginFail := false, prepareFail := false, execFailAt := some k,
          commitFail := false } = (k, some DBError.insertMessage, s)) := by
  refine ⟨(PersistMessages_spec s now msgs f).1, (PersistMessages_spec s now msgs f).2, ?_⟩
  have hne : msgs ≠ [] := by
    intro hcon
    rw [hcon] at hk
    simp at hk
  rw [Store.PersistMessages, if_neg (by simp [hh]), if_neg hne, if_neg (by simp [hc]),
    if_neg (by simp), if_neg (by simp)]
  rw [persistLoop_failAt msgs k 0 0 s.messages (by simp) hk]
  simp [commitStep]

/-- Counterexample for C4 as stated: with the second statement of a
two-record batch failing, the operation errors and no row is applied
(the store is unchanged), yet the returned persisted count is 1, so the
count does not reflect the rows actually applied. -/
theorem persistMessages_count_cex :
    (Store.PersistMessages sampleStore 5 [sampleMsgRecord 1 "a", sampleMsgRecord 2 "b"]
        { beginFail := false, prepareFail := false, execFailAt := some 1,
          commitFail := false }).1 = 1 ∧
    (Store.PersistMessages sampleStore 5 [sampleMsgRecord 1 "a", sampleMsgRecord 2 "b"]
        { beginFail := false, prepareFail := false, execFailAt := some 1,
          commitFail := false }).2.1 = some DBError.insertMessage ∧
    (Store.PersistMessages sampleStore 5 [sampleMsgRecord 1 "a", sampleMsgRecord 2 "b"]
        { beginFail := false, prepareFail := false, execFailAt := some 1,
          commitFail := false }).2.2 = sampleStore :=
  ⟨rfl, rfl, rfl⟩

/-- Witness for C4 (amended) at a concrete store and batch. -/
theorem persistMessages_atomic_witness :
    ((Store.PersistMessages sampleStore 5 [sampleMsgRecord 1 "a", sampleMsgRecord 2 "b"]
        noFaults).2.1 ≠ Option.none →
      (Store.PersistMessages sampleStore 5 [sampleMsgRecord 1 "a", sampleMsgRecord 2 "b"]
        noFaults).2.2 = sampleStore) ∧
    ((Store.PersistMessages sampleStore 5 [sampleMsgRecord 1 "a", sampleMsgRecord 2 "b"]
        noFaults).2.1 = Option.none →
      (Store.PersistMessages sampleStore 5 [sampleMsgRecord 1 "a", sampleMsgRecord 2 "b"]
        noFaults).2.2 =
          { sampleStore with messages := applyBatch 5 sampleStore.messages [sampleMsgRecord 1 "a", sampleMsgRecord 2 "b"] } ∧
        (Store.PersistMessages sampleStore 5 [sampleMsgRecord 1 "a", sampleMsgRecord 2 "b"]
          noFaults).1 = [sampleMsgRecord 1 "a", sampleMsgRecord 2 "b"].length) ∧
    (Store.PersistMessages sampleStore 5 [sampleMsgRecord 1 "a", sampleMsgRecord 2 "b"]
        { beginFail := false, prepareFail := false, execFailAt := some 1,
          commitFail := false } = (1, some DBError.insertMessage, sampleStore)) :=
  persistMessages_atomic sampleStore 5 [sampleMsgRecord 1 "a", sampleMsgRecord 2 "b"]
    noFaults 1 (by decide) rfl rfl

/-- C10: persisting an empty batch returns a zero count and no error
without touching the database: `Store.PersistMessages` on any
initialized store returns (0, no error, unchanged store) for every
fault schedule, and `PersistReceived` short-circuits before any store
call for every store whatsoever. -/
theorem persistEmptyBatch_noop
    (s s2 : Store) (now now2 : Nat) (f f2 : TxFaults) (hh : s.hasHandle = true) :
    Store.PersistMessages s now [] f = (0, Option.none, s) ∧
    PersistReceived s2 now2 [] f2 = (0, Option.none, s2) := by
  constructor
  · rw [Store.PersistMessages, if_neg (by simp [hh]), if_pos rfl]
  · rw [PersistReceived, if_pos rfl]

/-- Witness for C10 at concrete stores, with an all-failing fault
schedule to exhibit that no database operation is reached. -/
theorem persistEmptyBatch_noop_witness :
    Store.PersistMessages sampleStore 7 []
        { beginFail := true, prepareFail := true, execFailAt := some 0,
          commitFail := true } = (0, Option.none, sampleStore) ∧
    PersistReceived nilStore 8 [] noFaults = (0, Option.none, nilStore) :=
  persistEmptyBatch_noop sampleStore nilStore 7 8
    { beginFail := true, prepareFail := true, execFailAt := some 0, commitFail := true }
    noFaults rfl

/-- C8 (amended): persistence operations against a never-opened store
(nil store or nil handle) fail with the distinct not-initialized
condition before touching the database; operations against a store
that was opened and then closed pass the nil check and fail instead
with the generic driver errors of the closed handle, which are
distinct from the not-initialized condition. -/
theorem storeOps_notInitialized
    (s sc : Store) (now nowc : Nat) (msgs : List MessageRecord)
    (rec recc : SentRecord) (f fc : TxFaults) (io ioc : Bool)
    (lim limc : Int) (since sincec : Option Nat) (search searchc : String)
    (hs : s.hasHandle = false)
    (hc1 : sc.hasHandle = true) (hc2 : sc.closed = true) (hm : msgs ≠ []) :
    Store.PersistMessages s now msgs f = (0, some DBError.notInitialized, s) ∧
    Store.LogSent s now rec io = (some DBError.notInitialized, s) ∧
    Store.QueryMessages s lim since search = Except.error DBError.notInitialized ∧
    Store.PersistMessages sc nowc msgs fc = (0, some DBError.beginTx, sc) ∧
    (Store.LogSent sc nowc recc ioc).1 = some DBError.insertSent ∧
    Store.QueryMessages sc limc sincec searchc = Except.error DBError.queryFailed ∧
    DBError.beginTx ≠ DBError.notInitialized ∧
    DBError.insertSent ≠ DBError.notInitialized ∧
    DBError.queryFailed ≠ DBError.notInitialized := by
  refine ⟨?_, ?_, ?_, ?_, ?_, ?_, by decide, by decide, by decide⟩
  · simp [Store.PersistMessages, hs]
  · simp [Store.LogSent, hs]
  · simp [Store.QueryMessages, hs]
  · simp [Store.PersistMessages, hc1, hc2, hm]
  · simp [Store.LogSent, hc1, hc2]
  · simp [Store.QueryMessages, hc1, hc2]

/-- Counterexample for C8 as stated: a store closed via `Close` is a
closed store, yet appending a sent record to it fails with the generic
insert error of the closed handle, not with the distinct
not-initialized condition the claim requires. -/
theorem storeClosed_cex :
    (Store.Close sampleStore).closed = true ∧
    (Store.LogSent (Store.Close sampleStore) 3 sampleSent false).1 =
      some DBError.insertSent ∧
    some DBError.insertSent ≠ some DBError.notInitialized :=
  ⟨rfl, rfl, by decide⟩

/-- Witness for C8 (amended) at concrete stores. -/
theorem storeOps_notInitialized_witness :
    Store.PersistMessages nilStore 1 [sampleMsgRecord 1 "a"] noFaults =
      (0, some DBError.notInitialized, nilStore) ∧
    Store.LogSent nilStore 1 sampleSent false = (some DBError.notInitialized, nilStore) ∧
    Store.QueryMessages nilStore 5 Option.none "" =
      Except.error DBError.notInitialized ∧
    Store.PersistMessages closedStore 2 [sampleMsgRecord 1 "a"] noFaults =
      (0, some DBError.beginTx, closedStore) ∧
    (Store.LogSent closedStore 2 sampleSent false).1 = some DBError.insertSent ∧
    Store.QueryMessages closedStore 6 Option.none "" =
      Except.error DBError.queryFailed ∧
    DBError.beginTx ≠ DBError.notInitialized ∧
    DBError.insertSent ≠ DBError.notInitialized ∧
    DBError.queryFailed ≠ DBError.notInitialized :=
  storeOps_notInitialized nilStore closedStore 1 2 [sampleMsgRecord 1 "a"]
    sampleSent sampleSent noFaults noFaults false false 5 6 Option.none Option.none
    "" "" rfl rfl rfl (by decide)

lemma highestFold_ge_start (msgs : List ReceivedMessage) :
    ∀ start : Int, start ≤ highestFold msgs start := by
  induction msgs with
  | nil => intro start; exact le_refl start
  | cons m rest ih =>
    intro start
    have hstep : start ≤ (if m.pushoverID > start then m.pushoverID else start) := by
      split <;> omega
    exact le_trans hstep (ih _)

lemma highestFold_ub (msgs : List ReceivedMessage) :
    ∀ (start : Int) (m : ReceivedMessage), m ∈ msgs →
      m.pushoverID ≤ highestFold msgs start := by
  induction msgs with
  | nil => intro start m hm; simp at hm
  | cons m2 rest ih =>
    intro start m hm
    rcases List.mem_cons.mp hm with hm1 | hm2
    · subst hm1
      have hstep : m.pushoverID ≤ (if m.pushoverID > start then m.pushoverID else start) := by
        split <;> omega
      exact le_trans hstep (highestFold_ge_start rest _)
    · exact ih _ m hm2

lemma highestFold_mem (msgs : List ReceivedMessage) :
    ∀ start : Int, highestFold msgs start = start ∨
      ∃ m ∈ msgs, highestFold msgs start = m.pushoverID := by
  induction msgs with
  | nil => intro start; exact Or.inl rfl
  | cons m rest ih =>
    intro start
    rcases ih (if m.pushoverID > start then m.pushoverID else start) with heq | ⟨m2, hm2, he2⟩
    · by_cases hgt : m.pushoverID > start
      · right
        refine ⟨m, List.mem_cons_self m rest, ?_⟩
        show highestFold rest (if m.pushoverID > start then m.pushoverID else start) = _
        rw [heq, if_pos hgt]
      · left
        show highestFold rest (if m.pushoverID > start then m.pushoverID else start) = start
        rw [heq, if_neg hgt]
    · right
      exact ⟨m2, List.mem_cons_of_mem m hm2, he2⟩

/-- The value the pipeline returns for a successful fetch, spelled out
field by field. -/
lemma handleCheckMessages_ok (env : CheckEnv) (limitIn : Option Int)
    (r : FetchResult) (hf : env.fetch = .ok r) :
    handleCheckMessages env limitIn = .ok
      ({ count := r.messages.length
         returned := (if r.messages.length > limitOf limitIn then
             r.messages.take (limitOf limitIn) else r.messages).length
         limit := limitOf limitIn
         persisted := (PersistReceived env.store env.now r.messages env.faults).1
         ackedUpTo := determineAckID (some r)
         messages := if r.messages.length > limitOf limitIn then
             r.messages.take (limitOf limitIn) else r.messages
         warning := warningOf (PersistReceived env.store env.now r.messages env.faults).2.1
         ackWarning := if determineAckID (some r) > 0 then
             ackWarnOf (env.ack (determineAckID (some r))) else "" },
       (if determineAckID (some r) > 0 then true else false),
       (PersistReceived env.store env.now r.messages env.faults).2.2) := by
  unfold handleCheckMessages
  rw [hf]

lemma DBError_message_ne_empty (e : DBError) : DBError.message e ≠ "" := by
  cases e <;> decide

/-- C2: the acknowledgment cursor prefers a positive explicit fetch
cursor and otherwise equals the maximum remote identity among the
fetched messages (for the nonnegative identities the remote service
assigns); with an explicit cursor of 0 and a non-empty list it is the
maximum identity in the list; and when no messages were fetched and no
explicit cursor was given the pipeline issues no acknowledge call.
`cli.highestMessageID` computes the same cursor as `mcp.determineAckID`. -/
theorem determineAckID_spec
    (r1 r2 r3 : FetchResult) (env : CheckEnv) (limitIn : Option Int)
    (h1 : 0 < r1.lastMessageID)
    (h2 : r2.lastMessageID ≤ 0) (h2ne : r2.messages ≠ [])
    (h2nn : ∀ m ∈ r2.messages, 0 ≤ m.pushoverID)
    (hf : env.fetch = .ok r3) (h3e : r3.messages = []) (h3c : r3.lastMessageID = 0) :
    determineAckID (some r1) = r1.lastMessageID ∧
    (∃ m ∈ r2.messages, determineAckID (some r2) = m.pushoverID ∧
      ∀ m2 ∈ r2.messages, m2.pushoverID ≤ determineAckID (some r2)) ∧
    highestMessageID (some r1) r1.messages = determineAckID (some r1) ∧
    highestMessageID (some r2) r2.messages = determineAckID (some r2) ∧
    (∃ out st, handleCheckMessages env limitIn = .ok (out, false, st) ∧
      out.ackedUpTo = 0) := by
  have hd1 : determineAckID (some r1) = r1.lastMessageID := by
    rw [determineAckID, if_pos h1]
  have hd2 : determineAckID (some r2) = highestFold r2.messages 0 := by
    rw [determineAckID, if_neg (by omega)]
  refine ⟨hd1, ?_, ?_, ?_, ?_⟩
  · rw [hd2]
    rcases highestFold_mem r2.messages 0 with heq | ⟨m, hm, he⟩
    · rcases List.exists_mem_of_ne_nil r2.messages h2ne with ⟨m0, hm0⟩
      have hub := highestFold_ub r2.messages 0 m0 hm0
      have hnn := h2nn m0 hm0
      rw [heq] at hub
      refine ⟨m0, hm0, by omega, ?_⟩
      intro m2 hm2
      exact highestFold_ub r2.messages 0 m2 hm2
    · exact ⟨m, hm, he.symm ▸ rfl, fun m2 hm2 => highestFold_ub r2.messages 0 m2 hm2⟩
  · rw [highestMessageID, if_pos h1, hd1]
  · rw [highestMessageID, if_neg (by omega), hd2]
  · have hack : determineAckID (some r3) = 0 := by
      rw [determineAckID, if_neg (by omega), h3e]
      rfl
    have hok := handleCheckMessages_ok env limitIn r3 hf
    have hfalse : (if determineAckID (some r3) > 0 then true else false) = false := by
      rw [hack]
      rfl
    rw [hfalse] at hok
    refine ⟨_, _, hok, ?_⟩
    show determineAckID (some r3) = 0
    exact hack

/-- Witness for C2: an explicit cursor of 7, the 100/105 two-message
fetch of the specification scenario with no explicit cursor, and an
empty fetch with no cursor. -/
theorem determineAckID_spec_witness :
    determineAckID (some fetchR7) = fetchR7.lastMessageID ∧
    (∃ m ∈ fetchR100.messages, determineAckID (some fetchR100) = m.pushoverID ∧
      ∀ m2 ∈ fetchR100.messages, m2.pushoverID ≤ determineAckID (some fetchR100)) ∧
    highestMessageID (some fetchR7) fetchR7.messages = determineAckID (some fetchR7) ∧
    highestMessageID (some fetchR100) fetchR100.messages =
      determineAckID (some fetchR100) ∧
    (∃ out st, handleCheckMessages emptyEnv Option.none = .ok (out, false, st) ∧
      out.ackedUpTo = 0) :=
  determineAckID_spec fetchR7 fetchR100 fetchEmpty emptyEnv Option.none
    (by decide) (by decide) (by decide) (by decide) rfl rfl rfl

/-- C3: a persistence failure is non-fatal to the ingestion cycle: the
pipeline still returns a successful result carrying the fetched
messages, the persist failure surfaces as the non-empty `warning`
string while the acknowledge outcome surfaces independently in the
separate `ackWarning` string, and the acknowledge call still proceeds
exactly when the cursor is positive.  In the concrete scenario of a
successful fetch of 3 messages whose persistence fails at transaction
begin, the result reports a count of 3, zero persisted, a non-empty
warning, and still acknowledges up to identity 3. -/
theorem checkMessages_persistFailure_nonfatal
    (env : CheckEnv) (limitIn : Option Int) (r : FetchResult) (e : DBError)
    (hf : env.fetch = .ok r)
    (hp : (PersistReceived env.store env.now r.messages env.faults).2.1 = some e) :
    (∃ out st, handleCheckMessages env limitIn =
        .ok (out, (if determineAckID (some r) > 0 then true else false), st) ∧
      out.count = r.messages.length ∧
      out.messages = (if r.messages.length > limitOf limitIn then
          r.messages.take (limitOf limitIn) else r.messages) ∧
      out.warning = DBError.message e ∧ DBError.message e ≠ "" ∧
      out.ackWarning = (if determineAckID (some r) > 0 then
          ackWarnOf (env.ack (determineAckID (some r))) else "") ∧
      out.persisted = (PersistReceived env.store env.now r.messages env.faults).1) ∧
    (∃ out2 st2, handleCheckMessages scenarioEnv Option.none = .ok (out2, true, st2) ∧
      out2.count = 3 ∧ out2.persisted = 0 ∧ out2.warning ≠ "" ∧ out2.ackedUpTo = 3) := by
  constructor
  · refine ⟨_, _, handleCheckMessages_ok env limitIn r hf, rfl, rfl, ?_, ?_, rfl, rfl⟩
    · show warningOf (PersistReceived env.store env.now r.messages env.faults).2.1 =
        DBError.message e
      rw [hp]
      rfl
    · exact DBError_message_ne_empty e
  · have h := handleCheckMessages_ok scenarioEnv Option.none scenarioFetch rfl
    have htrue : (if determineAckID (some scenarioFetch) > 0 then true else false) =
        true := by decide
    rw [htrue] at h
    exact ⟨_, _, h, by decide, by decide, by decide, by decide⟩

/-- Witness for C3 at the concrete scenario environment. -/
theorem checkMessages_persistFailure_nonfatal_witness :
    (∃ out st, handleCheckMessages scenarioEnv Option.none =
        .ok (out, (if determineAckID (some scenarioFetch) > 0 then true else false),
          st) ∧
      out.count = scenarioFetch.messages.length ∧
      out.messages = (if scenarioFetch.messages.length > limitOf Option.none then
          scenarioFetch.messages.take (limitOf Option.none)
        else scenarioFetch.messages) ∧
      out.warning = DBError.message DBError.beginTx ∧
      DBError.message DBError.beginTx ≠ "" ∧
      out.ackWarning = (if determineAckID (some scenarioFetch) > 0 then
          ackWarnOf (scenarioEnv.ack (determineAckID (some scenarioFetch))) else "") ∧
      out.persisted = (PersistReceived scenarioEnv.store scenarioEnv.now
        scenarioFetch.messages scenarioEnv.faults).1) ∧
    (∃ out2 st2, handleCheckMessages scenarioEnv Option.none = .ok (out2, true, st2) ∧
      out2.count = 3 ∧ out2.persisted = 0 ∧ out2.warning ≠ "" ∧ out2.ackedUpTo = 3) :=
  checkMessages_persistFailure_nonfatal scenarioEnv Option.none scenarioFetch
    DBError.beginTx rfl rfl

lemma attemptsOf_pos (retries : Int) : 1 ≤ attemptsOf retries := by
  unfold attemptsOf
  split
  · exact le_refl 1
  · rename_i h
    omega

lemma doLoop_ctxTop (env : DoEnv) (r i : Nat) (le : Option PushErr)
    (h : env.ctxTop i = true) :
    doLoop env (r + 1) i le = (.error .ctxCanceled, []) := by
  rw [doLoop, if_pos h]

lemma doLoop_ok (env : DoEnv) (r i : Nat) (le : Option PushErr) (resp : HTTPResponse)
    (ht : env.ctxTop i = false) (hb : env.buildFails i = false)
    (hd : env.dispatch i = .ok resp) :
    doLoop env (r + 1) i le = (.ok resp, [.build i, .dispatch i]) := by
  simp [doLoop, ht, hb, hd]

lemma doLoop_ctxWait (env : DoEnv) (r i : Nat) (le : Option PushErr) (e : PushErr)
    (ht : env.ctxTop i = false) (hb : env.buildFails i = false)
    (hd : env.dispatch i = .error e) (ha : env.ctxAfter i = false)
    (hw : env.ctxWait i = true) :
    doLoop env (r + 2) i le = (.error .ctxCanceled, [.build i, .dispatch i]) := by
  simp [doLoop, ht, hb, hd, ha, hw]

lemma doLoop_cleanFail (env : DoEnv) :
    ∀ (r i : Nat) (le : Option PushErr), CleanFail env i (i + r) →
      doLoop env (r + 1) i le =
        (.error (errOf (env.dispatch (i + r))), cleanTrace (r + 1) i) := by
  intro r
  induction r with
  | zero =>
    intro i le hcf
    obtain ⟨ht, hb, hd, ha, _⟩ := hcf i (le_refl i) (Nat.le_add_right i 0)
    rcases hd2 : env.dispatch i with e | resp
    · simp [doLoop, ht, hb, hd2, ha, errOf, cleanTrace]
    · rw [hd2] at hd
      simp [Except.isOk, Except.toBool] at hd
  | succ r ih =>
    intro i le hcf
    obtain ⟨ht, hb, hd, ha, hw⟩ := hcf i (le_refl i) (by omega)
    rcases hd2 : env.dispatch i with e | resp
    · have hcf2 : CleanFail env (i + 1) ((i + 1) + r) :=
        fun j hj1 hj2 => hcf j (by omega) (by omega)
      have hnext := ih (i + 1) (some e) hcf2
      have harith : (i + 1) + r = i + (r + 1) := by omega
      rw [harith] at hnext
      show doLoop env (r + 1 + 1) i le = _
      simp only [doLoop, ht, hb, hd2, ha, hw, Bool.false_eq_true, if_false, hnext]
      simp [cleanTrace]
    · rw [hd2] at hd
      simp [Except.isOk, Except.toBool] at hd

lemma cleanTrace_wait_mem (n : Nat) :
    ∀ (i s : Nat), DoEvent.wait s ∈ cleanTrace n i → s = retryDelay := by
  induction n using Nat.strong_induction_on with
  | _ n ih =>
    intro i s hmem
    match n with
    | 0 => simp [cleanTrace] at hmem
    | 1 => simp [cleanTrace] at hmem
    | r + 2 =>
      rw [cleanTrace] at hmem
      rcases List.mem_append.mp hmem with h1 | h2
      · simpa using h1
      · exact ih (r + 1) (by omega) (i + 1) s h2

lemma cleanTrace_build_of_dispatch (n : Nat) :
    ∀ (i j : Nat), DoEvent.dispatch j ∈ cleanTrace n i →
      DoEvent.build j ∈ cleanTrace n i := by
  induction n using Nat.strong_induction_on with
  | _ n ih =>
    intro i j hmem
    match n with
    | 0 => simp [cleanTrace] at hmem
    | 1 =>
      have hj : j = i := by simpa [cleanTrace] using hmem
      subst hj
      simp [cleanTrace]
    | r + 2 =>
      rw [cleanTrace] at hmem
      rw [cleanTrace]
      rcases List.mem_append.mp hmem with h1 | h2
      · have hj : j = i := by simpa using h1
        subst hj
        exact List.mem_append.mpr (Or.inl (by simp))
      · exact List.mem_append.mpr (Or.inr (ih (r + 1) (by omega) (i + 1) j h2))

lemma cleanTrace_counts (n : Nat) :
    ∀ i : Nat, 1 ≤ n →
      (cleanTrace n i).countP isBuild = n ∧
      (cleanTrace n i).countP isDispatch = n ∧
      (cleanTrace n i).countP isWait = n - 1 := by
  induction n using Nat.strong_induction_on with
  | _ n ih =>
    intro i hn
    match n with
    | 1 => simp [cleanTrace, List.countP_cons, isBuild, isDispatch, isWait]
    | r + 2 =>
      obtain ⟨hb2, hd2, hw2⟩ := ih (r + 1) (by omega) (i + 1) (by omega)
      rw [cleanTrace]
      rw [List.countP_append, List.countP_append, List.countP_append]
      rw [hb2, hd2, hw2]
      refine ⟨?_, ?_, ?_⟩ <;>
        simp [List.countP_cons, isBuild, isDispatch, isWait] <;> omega

/-- C5: the transport retry loop invokes the builder afresh on every
attempt, dispatches at most the attempt ceiling (default 2) times with
a fixed 5-second delay between attempts, returns the error of the last
attempt when all attempts fail, and aborts immediately with the
cancellation error when cancellation is observed before a dispatch or
during the inter-attempt delay. -/
theorem clientDo_retry_spec (env : DoEnv) (retries : Int)
    (hclean : CleanFail env 1 (attemptsOf retries)) :
    clientDo env retries =
      (.error (errOf (env.dispatch (attemptsOf retries))),
        cleanTrace (attemptsOf retries) 1) ∧
    (∀ j, DoEvent.dispatch j ∈ cleanTrace (attemptsOf retries) 1 →
      DoEvent.build j ∈ cleanTrace (attemptsOf retries) 1) ∧
    (cleanTrace (attemptsOf retries) 1).countP isBuild = attemptsOf retries ∧
    (cleanTrace (attemptsOf retries) 1).countP isDispatch = attemptsOf retries ∧
    (cleanTrace (attemptsOf retries) 1).countP isWait = attemptsOf retries - 1 ∧
    (∀ s, DoEvent.wait s ∈ cleanTrace (attemptsOf retries) 1 → s = retryDelay) ∧
    retryDelay = 5 ∧ attemptsOf defaultRequestAttempts = 2 ∧
    (∀ (env2 : DoEnv) (r i : Nat) (le : Option PushErr), env2.ctxTop i = true →
      doLoop env2 (r + 1) i le = (.error .ctxCanceled, [])) ∧
    (∀ (env2 : DoEnv) (r i : Nat) (le : Option PushErr) (e : PushErr),
      env2.ctxTop i = false → env2.buildFails i = false →
      env2.dispatch i = .error e → env2.ctxAfter i = false → env2.ctxWait i = true →
      doLoop env2 (r + 2) i le = (.error .ctxCanceled, [.build i, .dispatch i])) := by
  have hA := attemptsOf_pos retries
  obtain ⟨k, hk⟩ : ∃ k, attemptsOf retries = k + 1 :=
    ⟨attemptsOf retries - 1, by omega⟩
  have hmain : clientDo env retries =
      (.error (errOf (env.dispatch (attemptsOf retries))),
        cleanTrace (attemptsOf retries) 1) := by
    rw [clientDo, hk]
    have hcf : CleanFail env 1 (1 + k) := by
      intro j hj1 hj2
      exact hclean j hj1 (by omega)
    have := doLoop_cleanFail env k 1 Option.none hcf
    rw [this]
    have harith : 1 + k = k + 1 := by omega
    rw [harith]
  obtain ⟨hc1, hc2, hc3⟩ := cleanTrace_counts (attemptsOf retries) 1 hA
  exact ⟨hmain, fun j => cleanTrace_build_of_dispatch (attemptsOf retries) 1 j,
    hc1, hc2, hc3, fun s => cleanTrace_wait_mem (attemptsOf retries) 1 s,
    rfl, rfl,
    fun env2 r i le h => doLoop_ctxTop env2 r i le h,
    fun env2 r i le e ht hb hd ha hw => doLoop_ctxWait env2 r i le e ht hb hd ha hw⟩

/-- Witness for C5: the all-failing environment at the default attempt
ceiling. -/
theorem clientDo_retry_spec_witness :
    clientDo allFailEnv defaultRequestAttempts =
      (.error (errOf (allFailEnv.dispatch (attemptsOf defaultRequestAttempts))),
        cleanTrace (attemptsOf defaultRequestAttempts) 1) ∧
    (∀ j, DoEvent.dispatch j ∈ cleanTrace (attemptsOf defaultRequestAttempts) 1 →
      DoEvent.build j ∈ cleanTrace (attemptsOf defaultRequestAttempts) 1) ∧
    (cleanTrace (attemptsOf defaultRequestAttempts) 1).countP isBuild =
      attemptsOf defaultRequestAttempts ∧
    (cleanTrace (attemptsOf defaultRequestAttempts) 1).countP isDispatch =
      attemptsOf defaultRequestAttempts ∧
    (cleanTrace (attemptsOf defaultRequestAttempts) 1).countP isWait =
      attemptsOf defaultRequestAttempts - 1 ∧
    (∀ s, DoEvent.wait s ∈ cleanTrace (attemptsOf defaultRequestAttempts) 1 →
      s = retryDelay) ∧
    retryDelay = 5 ∧ attemptsOf defaultRequestAttempts = 2 ∧
    (∀ (env2 : DoEnv) (r i : Nat) (le : Option PushErr), env2.ctxTop i = true →
      doLoop env2 (r + 1) i le = (.error .ctxCanceled, [])) ∧
    (∀ (env2 : DoEnv) (r i : Nat) (le : Option PushErr) (e : PushErr),
      env2.ctxTop i = false → env2.buildFails i = false →
      env2.dispatch i = .error e → env2.ctxAfter i = false → env2.ctxWait i = true →
      doLoop env2 (r + 2) i le = (.error .ctxCanceled, [.build i, .dispatch i])) :=
  clientDo_retry_spec allFailEnv defaultRequestAttempts
    (fun _ _ _ => ⟨rfl, rfl, rfl, rfl, rfl⟩)

/-- C6: a response with status at least 400 is classified as a failure
without any further dispatch (retry covers only network-level failure):
the decoded error is the structured API error carrying the service
status (falling back to the HTTP status when the body reports none),
the request id, and the message list (falling back to the trimmed raw
body); status 412 yields the distinguished two-factor error value,
which is distinct from every generic API error. -/
theorem decodeAPIError_spec
    (resp r412 : HTTPResponse) (env : DoEnv) (retries : Int) (rr : HTTPResponse)
    (h4 : resp.statusCode ≥ 400) (hne : resp.statusCode ≠ 412)
    (h412 : r412.statusCode = 412)
    (ht : env.ctxTop 1 = false) (hb : env.buildFails 1 = false)
    (hd : env.dispatch 1 = .ok rr) :
    decodeAPIError resp = PushErr.api
        (if resp.bodyStatus = 0 then resp.statusCode else resp.bodyStatus)
        resp.bodyRequest
        (if resp.bodyErrors = [] ∧ resp.bodyRaw ≠ "" then [resp.bodyRaw.trim]
         else resp.bodyErrors) ∧
    classifyResponse resp = .error (decodeAPIError resp) ∧
    decodeAPIError r412 = PushErr.twoFactorRequired ∧
    (∀ (st : Int) (rq : String) (ms : List String),
      PushErr.twoFactorRequired ≠ PushErr.api st rq ms) ∧
    clientDo env retries = (.ok rr, [.build 1, .dispatch 1]) := by
  refine ⟨?_, ?_, ?_, ?_, ?_⟩
  · rw [decodeAPIError, if_neg hne]
  · rw [classifyResponse, if_pos h4]
  · rw [decodeAPIError, if_pos h412]
  · intro st rq ms h
    exact PushErr.noConfusion h
  · have hA := attemptsOf_pos retries
    obtain ⟨k, hk⟩ : ∃ k, attemptsOf retries = k + 1 :=
      ⟨attemptsOf retries - 1, by omega⟩
    rw [clientDo, hk]
    exact doLoop_ok env k 1 Option.none rr ht hb hd

/-- Witness for C6 at a 500 response, a 412 response, and an exchange
whose first attempt yields a status-400 response. -/
theorem decodeAPIError_spec_witness :
    decodeAPIError sampleErrResp = PushErr.api
        (if sampleErrResp.bodyStatus = 0 then sampleErrResp.statusCode
         else sampleErrResp.bodyStatus)
        sampleErrResp.bodyRequest
        (if sampleErrResp.bodyErrors = [] ∧ sampleErrResp.bodyRaw ≠ "" then
           [sampleErrResp.bodyRaw.trim]
         else sampleErrResp.bodyErrors) ∧
    classifyResponse sampleErrResp = .error (decodeAPIError sampleErrResp) ∧
    decodeAPIError sample412Resp = PushErr.twoFactorRequired ∧
    (∀ (st : Int) (rq : String) (ms : List String),
      PushErr.twoFactorRequired ≠ PushErr.api st rq ms) ∧
    clientDo oneOkEnv defaultRequestAttempts =
      (.ok status400Resp, [.build 1, .dispatch 1]) :=
  decodeAPIError_spec sampleErrResp sample412Resp oneOkEnv defaultRequestAttempts
    status400Resp (by decide) (by decide) rfl rfl rfl rfl

lemma nil_mem_suffixes (s : List Char) : [] ∈ suffixes s := by
  induction s with
  | nil => exact List.mem_singleton.mpr rfl
  | cons c s ih =>
    rw [suffixes]
    exact List.mem_cons_of_mem _ ih

lemma likeRun_append_percent : ∀ (w t : List Char),
    (∀ c ∈ w, ¬ c = '%' ∧ ¬ c = '_') →
    likeRun (w ++ ['%']) t = isPrefixCI w t := by
  intro w
  induction w with
  | nil =>
    intro t _
    show (suffixes t).any (fun t2 => likeRun [] t2) = true
    apply List.any_eq_true.mpr
    exact ⟨[], nil_mem_suffixes t, rfl⟩
  | cons c w2 ih =>
    intro t hw
    obtain ⟨hc1, hc2⟩ := hw c (List.mem_cons_self c w2)
    have hw2 : ∀ c2 ∈ w2, ¬ c2 = '%' ∧ ¬ c2 = '_' :=
      fun c2 h2 => hw c2 (List.mem_cons_of_mem c h2)
    show likeRun (c :: (w2 ++ ['%'])) t = isPrefixCI (c :: w2) t
    rw [likeRun.eq_def]
    dsimp only
    rw [if_neg hc1]
    cases t with
    | nil => rfl
    | cons d t2 =>
      show ((if c = '_' then true else likeChar c d) && likeRun (w2 ++ ['%']) t2) =
        isPrefixCI (c :: w2) (d :: t2)
      rw [if_neg hc2, ih t2 hw2]
      rfl

lemma likeMatch_eq_substringCI (pat s : String) (h : noWildcard pat = true) :
    likeMatch pat s = substringCI pat s := by
  have hw : ∀ c ∈ pat.toList, ¬ c = '%' ∧ ¬ c = '_' := by
    intro c hc
    have h2 := List.all_eq_true.mp h c hc
    simp at h2
    exact h2
  show (suffixes s.toList).any (fun t => likeRun (pat.toList ++ ['%']) t) =
    (suffixes s.toList).any (fun t => isPrefixCI pat.toList t)
  have hfun : (fun t => likeRun (pat.toList ++ ['%']) t) =
      (fun t => isPrefixCI pat.toList t) :=
    funext (fun t => likeRun_append_percent pat.toList t hw)
  rw [hfun]

/-- C7 (amended): querying received records returns rows ordered by
receipt time most-recent-first, at most the (normalised) limit of
them, all drawn from the store, satisfying the since threshold when it
is supplied and, when the search string is non-empty, matching the
native `LIKE` filter the store applies — in which percent signs and
underscores inside the search string act as wildcards; for a search
string free of both wildcard characters that filter is exactly
ASCII-case-insensitive substring containment.  The returned rows
dominate every matching row left out (they are the most recent
matches). -/
theorem queryMessages_spec
    (s : Store) (limit : Int) (since : Option Nat) (search : String)
    (hh : s.hasHandle = true) (hc : s.closed = false) :
    ∃ out, Store.QueryMessages s limit since search = .ok out ∧
      List.Sorted recvDesc out ∧
      out.length = min (if limit ≤ 0 then 20 else limit.toNat)
        ((s.messages.filter (rowKept since search)).length) ∧
      (∀ r ∈ out, r ∈ s.messages) ∧
      (∀ t, since = some t → t ≠ 0 → ∀ r ∈ out, t ≤ r.receivedAt) ∧
      (search ≠ "" → ∀ r ∈ out, rowMatchesSearch search r = true) ∧
      (∃ rest, (out ++ rest).Perm (s.messages.filter (rowKept since search)) ∧
        ∀ x ∈ rest, ∀ y ∈ out, x.receivedAt ≤ y.receivedAt) ∧
      (∀ (pat str : String), noWildcard pat = true →
        likeMatch pat str = substringCI pat str) := by
  have hkey : Store.QueryMessages s limit since search = .ok
      ((List.insertionSort recvDesc (s.messages.filter (rowKept since search))).take
        (if limit ≤ 0 then 20 else limit.toNat)) := by
    rw [Store.QueryMessages, if_neg (by simp [hh]), if_neg (by simp [hc])]
  have hsorted : List.Sorted recvDesc
      (List.insertionSort recvDesc (s.messages.filter (rowKept since search))) :=
    List.sorted_insertionSort recvDesc _
  have hperm := List.perm_insertionSort recvDesc
    (s.messages.filter (rowKept since search))
  have hmem : ∀ r ∈ (List.insertionSort recvDesc
        (s.messages.filter (rowKept since search))).take
      (if limit ≤ 0 then 20 else limit.toNat),
      r ∈ s.messages ∧ rowKept since search r = true := by
    intro r hr
    have h1 := List.mem_of_mem_take hr
    have h2 := hperm.mem_iff.mp h1
    exact List.mem_filter.mp h2
  refine ⟨_, hkey, ?_, ?_, fun r hr => (hmem r hr).1, ?_, ?_, ?_,
    fun pat str hnw => likeMatch_eq_substringCI pat str hnw⟩
  · exact List.Pairwise.sublist (List.take_sublist _ _) hsorted
  · rw [List.length_take, hperm.length_eq]
  · intro t hts ht0 r hr
    have h2 := (hmem r hr).2
    rw [hts] at h2
    simp [rowKept, ht0] at h2
    exact h2.1
  · intro hs r hr
    have h2 := (hmem r hr).2
    simp [rowKept, hs] at h2
    exact h2.2
  · refine ⟨(List.insertionSort recvDesc
        (s.messages.filter (rowKept since search))).drop
      (if limit ≤ 0 then 20 else limit.toNat), ?_, ?_⟩
    · rw [List.take_append_drop]
      exact hperm
    · intro x hx y hy
      exact hsorted.rel_of_mem_take_of_mem_drop hy hx

/-- Witness for C7 at a concrete two-row store with a limit of 1, a
nonzero since threshold, and a non-empty search string. -/
theorem queryMessages_spec_witness :
    ∃ out, Store.QueryMessages queryStore 1 (some 3) "bo" = .ok out ∧
      List.Sorted recvDesc out ∧
      out.length = min (if (1 : Int) ≤ 0 then 20 else (1 : Int).toNat)
        ((queryStore.messages.filter (rowKept (some 3) "bo")).length) ∧
      (∀ r ∈ out, r ∈ queryStore.messages) ∧
      (∀ t, (some 3 : Option Nat) = some t → t ≠ 0 → ∀ r ∈ out, t ≤ r.receivedAt) ∧
      ((("bo" : String) ≠ "") → ∀ r ∈ out, rowMatchesSearch "bo" r = true) ∧
      (∃ rest, (out ++ rest).Perm (queryStore.messages.filter (rowKept (some 3) "bo")) ∧
        ∀ x ∈ rest, ∀ y ∈ out, x.receivedAt ≤ y.receivedAt) ∧
      (∀ (pat str : String), noWildcard pat = true →
        likeMatch pat str = substringCI pat str) :=
  queryMessages_spec queryStore 1 (some 3) "bo" rfl rfl

/-- Counterexample for C7 as stated: searching for the four-character
string 100-percent returns the row whose body is 100x, because the
trailing percent sign of the search acts as a wildcard inside the
`LIKE` pattern the code builds; that body does not contain the search
string as a substring under the store collation (nor does the title),
so the only-matching-rows-are-returned conjunct of the claim is false
of the program. -/
theorem queryMessages_wildcard_cex :
    (Store.QueryMessages wildcardStore 5 Option.none "100%").toOption =
      some [wildcardRow] ∧
    substringCI "100%" wildcardRow.message = false ∧
    substringCI "100%" wildcardRow.title = false := by
  decide

lemma executingCount_setPhase_le {n : Nat} (s : LimiterState n) (i : Fin n)
    (p : CallPhase) :
    executingCount (setPhase s i p) ≤ executingCount s + 1 := by
  rw [executingCount, executingCount, setPhase]
  have hsub : Finset.univ.filter
      (fun j => Function.update s.phase i p j = CallPhase.executing) ⊆
      insert i (Finset.univ.filter (fun j => s.phase j = CallPhase.executing)) := by
    intro j hj
    rw [Finset.mem_filter] at hj
    by_cases hji : j = i
    · exact Finset.mem_insert.mpr (Or.inl hji)
    · rw [Function.update_apply, if_neg hji] at hj
      exact Finset.mem_insert.mpr
        (Or.inr (Finset.mem_filter.mpr ⟨Finset.mem_univ j, hj.2⟩))
  exact le_trans (Finset.card_le_card hsub) (Finset.card_insert_le _ _)

lemma executingCount_setPhase_notexec {n : Nat} (s : LimiterState n) (i : Fin n)
    (p : CallPhase) (hp : p ≠ CallPhase.executing) :
    executingCount (setPhase s i p) ≤ executingCount s := by
  rw [executingCount, executingCount, setPhase]
  apply Finset.card_le_card
  intro j hj
  rw [Finset.mem_filter] at hj
  have hj2 : Function.update s.phase i p j = CallPhase.executing := hj.2
  by_cases hji : j = i
  · rw [Function.update_apply, if_pos hji] at hj2
    exact absurd hj2 hp
  · rw [Function.update_apply, if_neg hji] at hj2
    exact Finset.mem_filter.mpr ⟨Finset.mem_univ j, hj2⟩

lemma reachable_executingCount_le {n : Nat} (s : LimiterState n)
    (h : ReachableState s) :
    executingCount s ≤ maxConcurrentRequests := by
  induction h with
  | refl => simp [executingCount, initState, maxConcurrentRequests]
  | tail hsteps hstep ih =>
    cases hstep with
    | start i hphase =>
      exact le_trans
        (executingCount_setPhase_notexec _ i CallPhase.waiting (by decide)) ih
    | acquire i hphase hlt =>
      rename_i b2
      have hle := executingCount_setPhase_le b2 i CallPhase.executing
      omega
    | release i hphase =>
      exact le_trans
        (executingCount_setPhase_notexec _ i CallPhase.finished (by decide)) ih
    | cancel i hphase =>
      exact le_trans
        (executingCount_setPhase_notexec _ i CallPhase.cancelled (by decide)) ih

/-- C9: however many concurrent calls (more than the pool size) target
one client, every reachable interleaving keeps at most
`maxConcurrentRequests = 2` calls executing against the underlying
exchange simultaneously, and a call blocked waiting for a slot can
always take the cancellation branch of the select. -/
theorem limiterConcurrencyBound (n : Nat) (_hn : 2 < n) (s : LimiterState n)
    (hs : ReachableState s) :
    executingCount s ≤ maxConcurrentRequests ∧
    maxConcurrentRequests = 2 ∧
    (∀ i : Fin n, s.phase i = CallPhase.waiting →
      LimiterStep s (setPhase s i CallPhase.cancelled)) :=
  ⟨reachable_executingCount_le s hs, rfl, fun i hi => LimiterStep.cancel s i hi⟩

/-- Witness for C9 at three concurrent calls in the initial state. -/
theorem limiterConcurrencyBound_witness :
    executingCount (initState 3) ≤ maxConcurrentRequests ∧
    maxConcurrentRequests = 2 ∧
    (∀ i : Fin 3, (initState 3).phase i = CallPhase.waiting →
      LimiterStep (initState 3) (setPhase (initState 3) i CallPhase.cancelled)) :=
  limiterConcurrencyBound 3 (by decide) (initState 3) Relation.ReflTransGen.refl

end Push
